import Mathlib

set_option maxRecDepth 100000

/-!
Verification of the `ip-scanner` repository (Rust, `src/scanner.rs`,
`src/lib.rs`, `src/main.rs`) against its natural-language specification.

The Rust code is shallowly embedded: machine integers (`u8`, `u16`, `u32`)
become `Nat` with explicit `% 2 ^ w` where overflow or truncation matters,
`Vec` becomes `List`, the fallible constructor (`parse().unwrap()`) returns
`Option`, and the TCP connect outcome of `scan_port` — an effect of the
external network — is abstracted as a boolean oracle parameter.
-/

/-- An IPv4 address as its four octets `o0.o1.o2.o3` (Rust `Ipv4Addr`,
octet k is `octets()[k]`).  Each octet is a `u8`, kept as a `Nat`; every
constructor call in the embedding supplies values `< 256`. -/
structure Ipv4Addr where
  o0 : Nat
  o1 : Nat
  o2 : Nat
  o3 : Nat
deriving DecidableEq, Repr

/-- The octet array `self.ip.octets()` of `Ipv4Addr`, index 0 leftmost. -/
def Ipv4Addr.octets (ip : Ipv4Addr) : List Nat :=
  [ip.o0, ip.o1, ip.o2, ip.o3]

/-- Result of a scan on a single IP (Rust struct `IpScanResult`):
the IP and the list of open ports. -/
structure IpScanResult where
  ip : Ipv4Addr
  open_ports : List Nat
deriving DecidableEq, Repr

/-- The Rust struct `Scanner`: target IP, port list, accumulated results. -/
structure Scanner where
  ip : Ipv4Addr
  ports : List Nat
  result : List IpScanResult
deriving DecidableEq, Repr

/-- The count `base_ips.iter().filter(|x| **x == 0).count()` from
`Scanner::get_ips`:
the number of zero-valued octets of the base address. -/
def number_of_groups (base : Ipv4Addr) : Nat :=
  (base.octets.filter (fun x => x == 0)).length

/-- The size `let number_of_ips = 256_u32.pow(number_of_groups)` followed by the
256-broadcast adjustment from `Scanner::get_ips`.  `u32` exponentiation
wraps modulo `2 ^ 32` (release semantics; the overflow-checked debug
semantics is `checked_pow_u32` below): for four zero octets
`256_u32.pow(4)` wraps to `0`. -/
def number_of_ips (base : Ipv4Addr) : Nat :=
  let raw := 256 ^ number_of_groups base % 2 ^ 32
  if raw = 256 then raw - 1 else raw

/-- Rust's overflow-checked `u32` power (what `256_u32.pow` does under
debug assertions: panic — here `none` — when the result exceeds `u32`). -/
def checked_pow_u32 (b e : Nat) : Option Nat :=
  if b ^ e < 2 ^ 32 then some (b ^ e) else none

/-- The loop body of `Scanner::get_ips` for index `i`: decompose `i` into
`l1 = i % 255`, `l2 = i / 255 % 256`, `l3 = i / 255 / 255 % 256`,
`l4 = i / 255 / 255 / 255 % 256` and substitute them positionally into the
zero-valued octets: octet 0 receives `l4`, octet 1 receives `l3`, octet 2
receives `l2`, octet 3 receives `l1`; non-zero octets are kept.  The
`as u8` casts are the `% 256` truncations. -/
def substOctets (base : Ipv4Addr) (i : Nat) : Ipv4Addr :=
  let l1 := i % 255
  let l2 := i / 255 % 256
  let l3 := i / 255 / 255 % 256
  let l4 := i / 255 / 255 / 255 % 256
  { o0 := if base.o0 = 0 then l4 % 256 else base.o0
    o1 := if base.o1 = 0 then l3 % 256 else base.o1
    o2 := if base.o2 = 0 then l2 % 256 else base.o2
    o3 := if base.o3 = 0 then l1 % 256 else base.o3 }

/-- Embedding of `Scanner::get_ips`: with no zero octet return `vec![self.ip]`;
otherwise run `for i in 1..number_of_ips` pushing the substituted address
(`List.range' 1 (n - 1)` is exactly `1, …, n - 1`, the iterator `1..n`). -/
def get_ips (base : Ipv4Addr) : List Ipv4Addr :=
  if number_of_groups base = 0 then [base]
  else
    (List.range' 1 (number_of_ips base - 1)).foldl
      (fun acc i => acc ++ [substOctets base i]) []

/-- Embedding of `Scanner::get_ips` under debug (overflow-checked) integer
semantics:
the `256_u32.pow` call is checked, so a wrap that release mode would
silently take becomes a panic (`none`). -/
def get_ips_checked (base : Ipv4Addr) : Option (List Ipv4Addr) :=
  if number_of_groups base = 0 then some [base]
  else
    match checked_pow_u32 256 (number_of_groups base) with
    | none => none
    | some raw =>
      let n := if raw = 256 then raw - 1 else raw
      some ((List.range' 1 (n - 1)).foldl
        (fun acc i => acc ++ [substOctets base i]) [])


/-- Formalisation of the specification's wording of the substitution rule
(for comparison with the source's `substOctets`): the digits
`l1, l2, l3, l4` are assigned to the zero-valued octets in the order those
octets are encountered scanning positions from rightmost (index 3) to
leftmost (index 0) — the first zero octet from the right receives `l1`,
the next zero octet encountered receives `l2`, then `l3`, then `l4`. -/
def substScanned (base : Ipv4Addr) (i : Nat) : Ipv4Addr :=
  let ds : Nat → Nat := fun k =>
    [i % 255, i / 255 % 256, i / 255 / 255 % 256,
      i / 255 / 255 / 255 % 256].getD k 0
  let c3 : Nat := if base.o3 = 0 then 1 else 0
  let c2 : Nat := c3 + (if base.o2 = 0 then 1 else 0)
  let c1 : Nat := c2 + (if base.o1 = 0 then 1 else 0)
  { o0 := if base.o0 = 0 then ds c1 else base.o0
    o1 := if base.o1 = 0 then ds c2 else base.o1
    o2 := if base.o2 = 0 then ds c3 else base.o2
    o3 := if base.o3 = 0 then ds 0 else base.o3 }

/-- Embedding of `scan_port`: attempts a TCP connection to `(ip, port)` with a 1 s
timeout and reports whether it succeeded.  The network outcome is external
to the program, so it is abstracted as the boolean oracle `connects`. -/
def scan_port (connects : Ipv4Addr → Nat → Bool) (ip : Ipv4Addr)
    (port : Nat) : Bool :=
  connects ip port

/-- Embedding of `scan_ip`: iterate the ports sequentially, pushing each port whose
probe succeeds, and return the IP with its open ports. -/
def scan_ip (connects : Ipv4Addr → Nat → Bool) (ip : Ipv4Addr)
    (ports : List Nat) : IpScanResult :=
  { ip := ip
    open_ports :=
      ports.foldl
        (fun acc p => if scan_port connects ip p then acc ++ [p] else acc)
        [] }

/-- The spawn loop of `Scanner::scan`: one task per address, in address
order, each owning a clone of the port list.  A task's eventual value is
deterministic (`scan_ip` of its address), so a handle is modelled by that
value. -/
def spawnHandles (connects : Ipv4Addr → Nat → Bool) (ips : List Ipv4Addr)
    (ports : List Nat) : List IpScanResult :=
  ips.foldl (fun acc ip => acc ++ [scan_ip connects ip ports]) []

/-- The executor's completion log: the schedule `σ` lists task indices in
the order the executor finishes them (duplicates/out-of-range entries are
ignored); each completed task `j` records its own result, independent of
when it ran. -/
def completedLog (handles : List IpScanResult) (σ : List Nat) :
    List (Nat × IpScanResult) :=
  σ.filterMap (fun j => (handles[j]?).map (fun r => (j, r)))

/-- The join loop of `Scanner::scan`: `for handle in handles` awaits the
handles in spawn order, reading each task's value from the completion
log (a missing entry — a join failure — yields no element, which the
order theorem's hypothesis rules out). -/
def awaitAll (handles : List IpScanResult) (σ : List Nat) :
    List IpScanResult :=
  (List.range handles.length).filterMap
    (fun j => ((completedLog handles σ).find? (fun e => e.1 == j)).map
      (fun e => e.2))

/-- Embedding of `Scanner::scan` on an address list, under completion schedule `σ`:
spawn one probe task per address, then await them in spawn order. -/
def scanSched (connects : Ipv4Addr → Nat → Bool) (ips : List Ipv4Addr)
    (ports : List Nat) (σ : List Nat) : List IpScanResult :=
  awaitAll (spawnHandles connects ips ports) σ

/-- Modelled from the spec: the dotted-quad IPv4 string parsing performed
by `ip.parse::<Ipv4Addr>()` lives in Rust's standard library, not in this
repository; the spec calls for "a valid dotted-quad IPv4 address".  Split
the character list on `.`. -/
def splitOnDot : List Char → List (List Char)
  | [] => [[]]
  | ch :: rest =>
    let r := splitOnDot rest
    if ch = '.' then [] :: r
    else
      match r with
      | [] => [[ch]]
      | g :: gs => (ch :: g) :: gs

/-- Modelled from the spec: one decimal octet of a dotted quad — a
non-empty digit string whose value is at most 255. -/
def parseOctet (cs : List Char) : Option Nat :=
  if cs ≠ [] ∧ cs.all Char.isDigit then
    let n := cs.foldl (fun a ch => a * 10 + (ch.toNat - 48)) 0
    if n ≤ 255 then some n else none
  else none

/-- Modelled from the spec: the std-library dotted-quad IPv4 parser —
exactly four octets separated by dots. -/
def parseIpv4 (cs : List Char) : Option Ipv4Addr :=
  match (splitOnDot cs).map parseOctet with
  | [some w, some x, some y, some z] => some ⟨w, x, y, z⟩
  | _ => none

/-- Embedding of `Scanner::new`: parse the IP string (`unwrap` panics — `none` — on a
parse failure, before any expansion or probing exists) and default the
ports to `[80, 22, 443, 8080]` when absent. -/
def Scanner.new (ipStr : List Char) (ports : Option (List Nat)) :
    Option Scanner :=
  match parseIpv4 ipStr with
  | none => none
  | some ip => some { ip := ip, ports := ports.getD [80, 22, 443, 8080],
                      result := [] }

/-- Embedding of the `run` function of `lib.rs`: construct the scanner, then
expand and scan.  When
construction fails nothing further happens — no expansion, no probing, no
results. -/
def run (connects : Ipv4Addr → Nat → Bool) (ipStr : List Char)
    (ports : Option (List Nat)) (σ : List Nat) :
    Option (List IpScanResult) :=
  (Scanner.new ipStr ports).map
    (fun s => scanSched connects (get_ips s.ip) s.ports σ)

/-- Pushing `f x` for each element (the `ips.push(...)` loop shape) is
`map`. -/
theorem foldl_push_eq_map {α β : Type} (f : α → β) :
    ∀ (l : List α) (acc : List β),
      l.foldl (fun a x => a ++ [f x]) acc = acc ++ l.map f := by
  intro l
  induction l with
  | nil => intro acc; simp
  | cons x xs ih => intro acc; simp [List.foldl_cons, ih]

/-- The wildcard branch of `get_ips` is the substitution map over the
index range `1, …, number_of_ips - 1`. -/
theorem get_ips_eq_map (base : Ipv4Addr) (hg : number_of_groups base ≠ 0) :
    get_ips base =
      (List.range' 1 (number_of_ips base - 1)).map (substOctets base) := by
  unfold get_ips
  rw [if_neg hg, foldl_push_eq_map]
  simp

/-- Conditionally pushing the elements that pass `g` (the
`open_ports.push(...)` loop shape) is `filter`. -/
theorem foldl_pushIf_eq_filter {α : Type} (g : α → Bool) :
    ∀ (l : List α) (acc : List α),
      l.foldl (fun a x => if g x then a ++ [x] else a) acc =
        acc ++ l.filter g := by
  intro l
  induction l with
  | nil => intro acc; simp
  | cons x xs ih =>
    intro acc
    by_cases hx : g x <;> simp [List.filter_cons, hx, ih]

/-- Any record in the completion log is the recorded task's own value. -/
theorem completedLog_mem (handles : List IpScanResult) (σ : List Nat)
    (e : Nat × IpScanResult) (he : e ∈ completedLog handles σ) :
    handles[e.1]? = some e.2 := by
  unfold completedLog at he
  rw [List.mem_filterMap] at he
  obtain ⟨j, -, hj⟩ := he
  cases hr : handles[j]? with
  | none => rw [hr] at hj; simp at hj
  | some r =>
    rw [hr] at hj
    simp only [Option.map_some', Option.some.injEq] at hj
    rw [← hj, hr]

/-- If task `j` appears in the schedule and exists in the pool, awaiting
its handle yields exactly its own result — whatever the schedule was. -/
theorem await_handle_eq (handles : List IpScanResult) (σ : List Nat)
    (j : Nat) (r : IpScanResult) (hσ : j ∈ σ) (hj : handles[j]? = some r) :
    ((completedLog handles σ).find? (fun e => e.1 == j)).map
      (fun e => e.2) = some r := by
  have hmem : ((j, r) : Nat × IpScanResult) ∈ completedLog handles σ := by
    unfold completedLog
    rw [List.mem_filterMap]
    exact ⟨j, hσ, by rw [hj]; rfl⟩
  cases hf : (completedLog handles σ).find? (fun e => e.1 == j) with
  | none =>
    rw [List.find?_eq_none] at hf
    exact absurd (by simp : ((j, r).1 == j) = true) (hf _ hmem)
  | some e =>
    have h1 : e.1 = j := by
      have := List.find?_some (p := fun x : Nat × IpScanResult => x.1 == j) hf
      simpa using this
    have h2 : handles[e.1]? = some e.2 :=
      completedLog_mem handles σ e (List.mem_of_find?_eq_some hf)
    rw [h1, hj] at h2
    simp only [Option.map_some', Option.some.injEq] at h2 ⊢
    exact h2.symm

/-- Reading every index of a list back in order reproduces the list. -/
theorem filterMap_getElem?_range {α : Type} :
    ∀ l : List α, (List.range l.length).filterMap (fun j => l[j]?) = l := by
  intro l
  induction l with
  | nil => simp
  | cons x t ih =>
    rw [List.length_cons, List.range_succ_eq_map, List.filterMap_cons]
    simp only [List.getElem?_cons_zero, List.filterMap_map]
    rw [show ((fun j => (x :: t)[j]?) ∘ Nat.succ) = (fun j => t[j]?) from
      funext (fun j => List.getElem?_cons_succ)]
    rw [ih]

/-- Awaiting the handles in spawn order returns every task's result in
spawn order, for any completion schedule that completes every task. -/
theorem awaitAll_eq (handles : List IpScanResult) (σ : List Nat)
    (hσ : ∀ j, j < handles.length → j ∈ σ) :
    awaitAll handles σ = handles := by
  unfold awaitAll
  rw [List.filterMap_congr (g := fun j => handles[j]?)
    (fun j hj => by
      rw [List.mem_range] at hj
      show _ = handles[j]?
      rw [List.getElem?_eq_getElem hj]
      exact await_handle_eq handles σ j _ (hσ j hj)
        (List.getElem?_eq_getElem hj))]
  exact filterMap_getElem?_range handles

/-- The spawn loop produces one handle per address, in address order. -/
theorem spawnHandles_eq_map (connects : Ipv4Addr → Nat → Bool)
    (ips : List Ipv4Addr) (ports : List Nat) :
    spawnHandles connects ips ports =
      ips.map (fun ip => scan_ip connects ip ports) := by
  unfold spawnHandles
  rw [foldl_push_eq_map]
  simp

/-- A base whose only zero octet is the rightmost one has exactly one
zero-octet group. -/
theorem number_of_groups_single (a b c : Nat) (ha : a ≠ 0) (hb : b ≠ 0)
    (hc : c ≠ 0) : number_of_groups ⟨a, b, c, 0⟩ = 1 := by
  simp [number_of_groups, Ipv4Addr.octets, List.filter_cons, ha, hb, hc]

/-- Expansion of `a.b.c.0` (a /24 host field): the 254 addresses
`a.b.c.1`, …, `a.b.c.254`, in that order. -/
theorem get_ips_single_zero (a b c : Nat) (ha : a ≠ 0) (hb : b ≠ 0)
    (hc : c ≠ 0) :
    get_ips ⟨a, b, c, 0⟩ =
      (List.range' 1 254).map (fun i => ⟨a, b, c, i⟩) := by
  have hg : number_of_groups ⟨a, b, c, 0⟩ = 1 :=
    number_of_groups_single a b c ha hb hc
  have hn : number_of_ips ⟨a, b, c, 0⟩ = 255 := by
    simp [number_of_ips, hg]
  rw [get_ips_eq_map _ (by rw [hg]; exact one_ne_zero), hn]
  apply List.map_congr_left
  intro i hi
  rw [List.mem_range'] at hi
  obtain ⟨k, hk, rfl⟩ := hi
  have hs : ∀ i : Nat, substOctets ⟨a, b, c, 0⟩ i =
      ⟨a, b, c, i % 255 % 256⟩ := by
    intro i
    simp [substOctets, ha, hb, hc]
  rw [hs]
  simp only [Ipv4Addr.mk.injEq, true_and]
  omega

/-- Every in-range substitution index contributes its address to the
expansion. -/
theorem substOctets_mem (base : Ipv4Addr) (i : Nat)
    (hg : number_of_groups base ≠ 0) (h1 : 1 ≤ i)
    (h2 : i < number_of_ips base) :
    substOctets base i ∈ get_ips base := by
  rw [get_ips_eq_map base hg]
  refine List.mem_map_of_mem _ ?_
  rw [List.mem_range']
  exact ⟨i - 1, by omega, by omega⟩

/-- C2: for every input address list and port list, `scan` produces
exactly one `IpScanResult` per input address, and the output order equals
the input address order for every completion schedule that completes all
spawned probe tasks — i.e. regardless of the order in which the
concurrent tasks finish. -/
theorem scan_one_result_per_address_in_order
    (connects : Ipv4Addr → Nat → Bool) (ips : List Ipv4Addr)
    (ports : List Nat) (σ : List Nat)
    (hσ : ∀ j, j < ips.length → j ∈ σ) :
    (scanSched connects ips ports σ).length = ips.length ∧
    (scanSched connects ips ports σ).map IpScanResult.ip = ips ∧
    scanSched connects ips ports σ =
      ips.map (fun ip => scan_ip connects ip ports) := by
  have hspawn := spawnHandles_eq_map connects ips ports
  have hlen : (spawnHandles connects ips ports).length = ips.length := by
    rw [hspawn, List.length_map]
  have h1 : scanSched connects ips ports σ =
      ips.map (fun ip => scan_ip connects ip ports) := by
    unfold scanSched
    rw [awaitAll_eq _ _ (by rw [hlen]; exact hσ), hspawn]
  refine ⟨by rw [h1, List.length_map], ?_, h1⟩
  rw [h1, List.map_map]
  have hcomp : (IpScanResult.ip ∘ fun ip => scan_ip connects ip ports) =
      id := by
    funext ip
    rfl
  rw [hcomp, List.map_id]

/-- Witness for C2 at two addresses awaited under the reversed completion
schedule `[1, 0]`. -/
theorem scan_one_result_per_address_in_order_witness :
    (scanSched (fun _ _ => false) [⟨10, 0, 0, 1⟩, ⟨10, 0, 0, 2⟩] [80]
      [1, 0]).length = 2 ∧
    (scanSched (fun _ _ => false) [⟨10, 0, 0, 1⟩, ⟨10, 0, 0, 2⟩] [80]
      [1, 0]).map IpScanResult.ip = [⟨10, 0, 0, 1⟩, ⟨10, 0, 0, 2⟩] ∧
    scanSched (fun _ _ => false) [⟨10, 0, 0, 1⟩, ⟨10, 0, 0, 2⟩] [80]
      [1, 0] =
      [⟨10, 0, 0, 1⟩, ⟨10, 0, 0, 2⟩].map
        (fun ip => scan_ip (fun _ _ => false) ip [80]) :=
  scan_one_result_per_address_in_order (fun _ _ => false)
    [⟨10, 0, 0, 1⟩, ⟨10, 0, 0, 2⟩] [80] [1, 0] (by decide)

/-- C7: for every address and request port list, `open_ports` of the
result of `scan_ip` is a subsequence of the request's port list (so it
preserves that list's order), and every element of `open_ports` is an
element of the request's ports. -/
theorem scan_ip_open_ports_sublist (connects : Ipv4Addr → Nat → Bool)
    (ip : Ipv4Addr) (ports : List Nat) :
    (scan_ip connects ip ports).open_ports.Sublist ports ∧
    ∀ p, p ∈ (scan_ip connects ip ports).open_ports → p ∈ ports := by
  have h : (scan_ip connects ip ports).open_ports =
      ports.filter (fun p => scan_port connects ip p) := by
    unfold scan_ip
    rw [foldl_pushIf_eq_filter]
    simp
  constructor
  · rw [h]
    exact List.filter_sublist ports
  · intro p hp
    rw [h] at hp
    exact (List.filter_sublist ports).subset hp

/-- Witness for C7 with an oracle that opens port 80 only. -/
theorem scan_ip_open_ports_sublist_witness :
    (scan_ip (fun _ p => p == 80) ⟨10, 0, 0, 1⟩ [22, 80]).open_ports.Sublist
      [22, 80] ∧
    80 ∈ [22, 80] :=
  ⟨(scan_ip_open_ports_sublist (fun _ p => p == 80) ⟨10, 0, 0, 1⟩
      [22, 80]).1,
   (scan_ip_open_ports_sublist (fun _ p => p == 80) ⟨10, 0, 0, 1⟩
      [22, 80]).2 80 (by decide)⟩

/-- C9: an input string that does not parse as a dotted-quad IPv4 address
makes `Scanner::new` fail, and the whole run fails there — before any
range expansion or port probing produces anything. -/
theorem invalid_address_fails_before_work (ipStr : List Char)
    (ports : Option (List Nat)) (connects : Ipv4Addr → Nat → Bool)
    (σ : List Nat) (h : parseIpv4 ipStr = none) :
    Scanner.new ipStr ports = none ∧ run connects ipStr ports σ = none := by
  have hn : Scanner.new ipStr ports = none := by
    unfold Scanner.new
    rw [h]
  exact ⟨hn, by unfold run; rw [hn]; rfl⟩

/-- Witness for C9 at the unparsable input `"z"`. -/
theorem invalid_address_fails_before_work_witness :
    Scanner.new ['z'] none = none ∧
    run (fun _ _ => false) ['z'] none [] = none :=
  invalid_address_fails_before_work ['z'] none (fun _ _ => false) []
    (by decide)

/-- C5: on the base address `0.0.0.0` (four zero octets) the size
computation `256_u32.pow(4)` overflows `u32`: under checked (debug)
arithmetic the expansion panics, and under wrapping (release) arithmetic
the size wraps to `0`, so the loop body never runs and the expansion is
the empty list — contradicting the claim that the call terminates
normally with no arithmetic-overflow failure (and the spec's "output
length … never zero"). -/
theorem expand_0_0_0_0_overflows :
    checked_pow_u32 256 (number_of_groups ⟨0, 0, 0, 0⟩) = none ∧
    get_ips_checked ⟨0, 0, 0, 0⟩ = none ∧
    get_ips ⟨0, 0, 0, 0⟩ = [] := by
  decide

/-- C8: the expansion of `192.0.0.0` contains the six representative
boundary members named by the spec (each exhibited at its enumeration
index `i`). -/
theorem get_ips_192_0_0_0_members :
    (⟨192, 1, 0, 0⟩ : Ipv4Addr) ∈ get_ips ⟨192, 0, 0, 0⟩ ∧
    (⟨192, 1, 1, 1⟩ : Ipv4Addr) ∈ get_ips ⟨192, 0, 0, 0⟩ ∧
    (⟨192, 1, 1, 254⟩ : Ipv4Addr) ∈ get_ips ⟨192, 0, 0, 0⟩ ∧
    (⟨192, 254, 254, 254⟩ : Ipv4Addr) ∈ get_ips ⟨192, 0, 0, 0⟩ ∧
    (⟨192, 255, 255, 254⟩ : Ipv4Addr) ∈ get_ips ⟨192, 0, 0, 0⟩ ∧
    (⟨192, 254, 128, 254⟩ : Ipv4Addr) ∈ get_ips ⟨192, 0, 0, 0⟩ := by
  have hg : number_of_groups ⟨192, 0, 0, 0⟩ ≠ 0 := by decide
  have hmem : ∀ (i : Nat) (target : Ipv4Addr), 1 ≤ i → i < 16777216 →
      substOctets ⟨192, 0, 0, 0⟩ i = target →
      target ∈ get_ips ⟨192, 0, 0, 0⟩ := by
    intro i target h1 h2 heq
    have hn : number_of_ips ⟨192, 0, 0, 0⟩ = 16777216 := by decide
    exact heq ▸ substOctets_mem _ i hg h1 (by rw [hn]; exact h2)
  exact ⟨hmem 65280 _ (by decide) (by decide) (by decide),
    hmem 65536 _ (by decide) (by decide) (by decide),
    hmem 65789 _ (by decide) (by decide) (by decide),
    hmem 16580864 _ (by decide) (by decide) (by decide),
    hmem 16646399 _ (by decide) (by decide) (by decide),
    hmem 16548734 _ (by decide) (by decide) (by decide)⟩

/-- Counterexample to C1: for the base `192.168.0.1` (zero octet at
position 2) and index `i = 1`, the claim's scan-from-the-right rule would
put `l1 = 1` into octet 2, producing `192.168.1.1` as the first output,
but the code assigns octet 2 the positional digit `l2 = 0`, producing
`192.168.0.1`. -/
theorem subst_scan_order_cex :
    substScanned ⟨192, 168, 0, 1⟩ 1 = ⟨192, 168, 1, 1⟩ ∧
    substOctets ⟨192, 168, 0, 1⟩ 1 = ⟨192, 168, 0, 1⟩ ∧
    (get_ips ⟨192, 168, 0, 1⟩)[0]? = some ⟨192, 168, 0, 1⟩ ∧
    (⟨192, 168, 0, 1⟩ : Ipv4Addr) ≠ ⟨192, 168, 1, 1⟩ := by
  decide

/-- C1 (amended): for every base with at least one zero octet and every
in-range index `i`, the `(i-1)`-th output substitutes the digits
positionally — octet 3 receives `l1` if zero, octet 2 receives `l2` if
zero, octet 1 receives `l3` if zero, octet 0 receives `l4` if zero — the
digit being fixed by the octet's position rather than by the count of
zero octets encountered from the right; non-zero octets are preserved
unchanged.  (This coincides with the claim exactly when the zero octets
form a contiguous run ending at the rightmost position.) -/
theorem get_ips_positional (base : Ipv4Addr) (i : Nat)
    (hg : number_of_groups base ≠ 0) (h1 : 1 ≤ i)
    (h2 : i < number_of_ips base) :
    (get_ips base)[i - 1]? = some (substOctets base i) ∧
    (base.o0 ≠ 0 → (substOctets base i).o0 = base.o0) ∧
    (base.o1 ≠ 0 → (substOctets base i).o1 = base.o1) ∧
    (base.o2 ≠ 0 → (substOctets base i).o2 = base.o2) ∧
    (base.o3 ≠ 0 → (substOctets base i).o3 = base.o3) := by
  refine ⟨?_, ?_, ?_, ?_, ?_⟩
  · rw [get_ips_eq_map base hg, List.getElem?_map,
      List.getElem?_range' 1 1 (show i - 1 < number_of_ips base - 1 by
        omega)]
    rw [show 1 + 1 * (i - 1) = i from by omega]
    rfl
  · intro h; simp [substOctets, h]
  · intro h; simp [substOctets, h]
  · intro h; simp [substOctets, h]
  · intro h; simp [substOctets, h]

/-- Witness for the amended C1 at base `192.168.1.0`, index `5`. -/
theorem get_ips_positional_witness :
    (get_ips ⟨192, 168, 1, 0⟩)[4]? =
      some (substOctets ⟨192, 168, 1, 0⟩ 5) ∧
    ((⟨192, 168, 1, 0⟩ : Ipv4Addr).o0 ≠ 0 →
      (substOctets ⟨192, 168, 1, 0⟩ 5).o0 =
        (⟨192, 168, 1, 0⟩ : Ipv4Addr).o0) ∧
    ((⟨192, 168, 1, 0⟩ : Ipv4Addr).o1 ≠ 0 →
      (substOctets ⟨192, 168, 1, 0⟩ 5).o1 =
        (⟨192, 168, 1, 0⟩ : Ipv4Addr).o1) ∧
    ((⟨192, 168, 1, 0⟩ : Ipv4Addr).o2 ≠ 0 →
      (substOctets ⟨192, 168, 1, 0⟩ 5).o2 =
        (⟨192, 168, 1, 0⟩ : Ipv4Addr).o2) ∧
    ((⟨192, 168, 1, 0⟩ : Ipv4Addr).o3 ≠ 0 →
      (substOctets ⟨192, 168, 1, 0⟩ 5).o3 =
        (⟨192, 168, 1, 0⟩ : Ipv4Addr).o3) :=
  get_ips_positional ⟨192, 168, 1, 0⟩ 5 (by decide) (by decide) (by decide)

/-- Counterexample to C3: the expansion of the base `192.168.0.1`
contains duplicate addresses (every index substitutes `l2 = 0` into
octet 2, so all 254 outputs coincide). -/
theorem get_ips_duplicates_cex :
    ¬ (get_ips ⟨192, 168, 0, 1⟩).Nodup := by
  decide

/-- C3 (amended): the expansion contains no duplicates when the base has
no zero octet, and when the only zero octet of the base is the rightmost
one; for other zero-octet patterns the output may contain duplicates. -/
theorem get_ips_nodup_cases :
    (∀ base : Ipv4Addr, number_of_groups base = 0 →
      (get_ips base).Nodup) ∧
    (∀ a b c : Nat, a ≠ 0 → b ≠ 0 → c ≠ 0 →
      (get_ips ⟨a, b, c, 0⟩).Nodup) := by
  constructor
  · intro base hg
    unfold get_ips
    rw [if_pos hg]
    exact List.nodup_singleton base
  · intro a b c ha hb hc
    rw [get_ips_single_zero a b c ha hb hc]
    refine List.Nodup.map ?_ (List.nodup_range' 1 254)
    intro x y hxy
    simpa using congrArg Ipv4Addr.o3 hxy

/-- Witness for the amended C3 at `10.1.1.1` and `192.168.1.0`. -/
theorem get_ips_nodup_cases_witness :
    (get_ips ⟨10, 1, 1, 1⟩).Nodup ∧ (get_ips ⟨192, 168, 1, 0⟩).Nodup :=
  ⟨get_ips_nodup_cases.1 ⟨10, 1, 1, 1⟩ (by decide),
   get_ips_nodup_cases.2 192 168 1 (by decide) (by decide) (by decide)⟩

/-- Counterexample to C4: `192.168.0.1` has exactly one zero octet, yet
the expansion does not substitute the values 1–254 into that octet: the
first output is `192.168.0.1` itself (substituted value 0) and
`192.168.1.1` never appears. -/
theorem single_zero_octet_values_cex :
    number_of_groups ⟨192, 168, 0, 1⟩ = 1 ∧
    (get_ips ⟨192, 168, 0, 1⟩)[0]? = some ⟨192, 168, 0, 1⟩ ∧
    (⟨192, 168, 1, 1⟩ : Ipv4Addr) ∉ get_ips ⟨192, 168, 0, 1⟩ := by
  decide

/-- C4 (amended): a base with exactly one zero octet always expands to
exactly 254 addresses; when that zero octet is the rightmost one, the
outputs substitute the values 1 through 254 into it, in increasing
order. -/
theorem get_ips_single_zero_spec :
    (∀ base : Ipv4Addr, number_of_groups base = 1 →
      (get_ips base).length = 254) ∧
    (∀ a b c : Nat, a ≠ 0 → b ≠ 0 → c ≠ 0 →
      get_ips ⟨a, b, c, 0⟩ =
        (List.range' 1 254).map (fun i => ⟨a, b, c, i⟩)) := by
  constructor
  · intro base hg
    have hn : number_of_ips base = 255 := by
      simp [number_of_ips, hg]
    rw [get_ips_eq_map base (by rw [hg]; exact one_ne_zero),
      List.length_map, hn, List.length_range']
  · exact fun a b c ha hb hc => get_ips_single_zero a b c ha hb hc

/-- Witness for the amended C4 at `192.168.1.0` and `10.20.30.0`. -/
theorem get_ips_single_zero_spec_witness :
    (get_ips ⟨192, 168, 1, 0⟩).length = 254 ∧
    get_ips ⟨10, 20, 30, 0⟩ =
      (List.range' 1 254).map (fun i => ⟨10, 20, 30, i⟩) :=
  ⟨get_ips_single_zero_spec.1 ⟨192, 168, 1, 0⟩ (by decide),
   get_ips_single_zero_spec.2 10 20 30 (by decide) (by decide)
     (by decide)⟩

/-- Counterexample to C6: the base `192.168.0.1` has a zero octet, yet
its expansion contains the base address itself. -/
theorem base_in_own_expansion_cex :
    number_of_groups ⟨192, 168, 0, 1⟩ ≠ 0 ∧
    (⟨192, 168, 0, 1⟩ : Ipv4Addr) ∈ get_ips ⟨192, 168, 0, 1⟩ := by
  decide

/-- C6 (amended): a base with no zero octets expands to exactly the
single-element sequence `[base]`; a base whose only zero octet is the
rightmost one never appears in its own expansion.  For other zero-octet
patterns the base address can appear in the output. -/
theorem get_ips_base_membership :
    (∀ base : Ipv4Addr, number_of_groups base = 0 →
      get_ips base = [base]) ∧
    (∀ a b c : Nat, a ≠ 0 → b ≠ 0 → c ≠ 0 →
      (⟨a, b, c, 0⟩ : Ipv4Addr) ∉ get_ips ⟨a, b, c, 0⟩) := by
  constructor
  · intro base hg
    unfold get_ips
    rw [if_pos hg]
  · intro a b c ha hb hc hmem
    rw [get_ips_single_zero a b c ha hb hc, List.mem_map] at hmem
    obtain ⟨i, hi, heq⟩ := hmem
    rw [List.mem_range'] at hi
    obtain ⟨k, hk, rfl⟩ := hi
    have hz : 1 + 1 * k = 0 := by
      simpa using congrArg Ipv4Addr.o3 heq
    omega

/-- Witness for the amended C6 at `10.1.1.1` and `192.168.1.0`. -/
theorem get_ips_base_membership_witness :
    get_ips ⟨10, 1, 1, 1⟩ = [⟨10, 1, 1, 1⟩] ∧
    (⟨192, 168, 1, 0⟩ : Ipv4Addr) ∉ get_ips ⟨192, 168, 1, 0⟩ :=
  ⟨get_ips_base_membership.1 ⟨10, 1, 1, 1⟩ (by decide),
   get_ips_base_membership.2 192 168 1 (by decide) (by decide)
     (by decide)⟩

/-- Counterexample to C10's general part: for the base `192.0.0.1` the
rightmost zero octet is octet 2, and the expansion does produce an
address carrying 255 there (`192.1.255.1`, at index `i = 65025`): the
mod-255 protection applies only to octet 3, which here is not a
wildcard. -/
theorem rightmost_wildcard_255_cex :
    (⟨192, 0, 0, 1⟩ : Ipv4Addr).o2 = 0 ∧
    (⟨192, 0, 0, 1⟩ : Ipv4Addr).o3 ≠ 0 ∧
    (⟨192, 1, 255, 1⟩ : Ipv4Addr) ∈ get_ips ⟨192, 0, 0, 1⟩ ∧
    (⟨192, 1, 255, 1⟩ : Ipv4Addr).o2 = 255 := by
  refine ⟨rfl, by decide, ?_, rfl⟩
  have hg : number_of_groups ⟨192, 0, 0, 1⟩ ≠ 0 := by decide
  have hm := substOctets_mem ⟨192, 0, 0, 1⟩ 65025 hg (by decide) (by decide)
  rwa [show substOctets ⟨192, 0, 0, 1⟩ 65025 = ⟨192, 1, 255, 1⟩ from by
    decide] at hm

/-- C10 (amended): when the rightmost octet of the base is zero, no
produced address carries the value 255 in that (rightmost) position,
because its digit is computed modulo 255.  The analogous statement for
the rightmost *zero-octet* position of an arbitrary base is false. -/
theorem rightmost_octet_zero_no_255 (base : Ipv4Addr) (x : Ipv4Addr)
    (h3 : base.o3 = 0) (hx : x ∈ get_ips base) : x.o3 ≠ 255 := by
  have hg : number_of_groups base ≠ 0 := by
    unfold number_of_groups Ipv4Addr.octets
    rw [h3, show [base.o0, base.o1, base.o2, (0 : Nat)] =
      [base.o0, base.o1, base.o2] ++ [0] from rfl, List.filter_append]
    simp
  rw [get_ips_eq_map base hg, List.mem_map] at hx
  obtain ⟨i, -, rfl⟩ := hx
  simp only [substOctets, h3, if_pos]
  omega

/-- Witness for the amended C10 at base `192.168.1.0` and the produced
address `192.168.1.7`. -/
theorem rightmost_octet_zero_no_255_witness :
    (⟨192, 168, 1, 7⟩ : Ipv4Addr).o3 ≠ 255 :=
  rightmost_octet_zero_no_255 ⟨192, 168, 1, 0⟩ ⟨192, 168, 1, 7⟩
    (by decide) (by decide)
